import Mathlib

/-!
Verification of the maestro workflow run engine core against its
natural-language specification.

The development shallowly embeds the TypeScript core of the repository:

* `packages/core/src/artifacts/manifest.ts` — the pure manifest
  state-transition functions and manifest persistence;
* `packages/core/src/events/` (`InMemoryEventBus`) — the in-process
  publish/subscribe bus;
* `packages/core/src/artifacts/file-store.ts` (`FileSystemArtifactStore`);
* `packages/core/src/workflow-engine.ts` (`WorkflowEngine.run`,
  `WorkflowEngine.getNextStep`).

Effectful TypeScript (timestamps from `new Date()`, the file system, the
execution backend, event handlers) is embedded by passing the outcome of
each effect explicitly: timestamps become `String` arguments drawn from an
environment clock, fallible operations return `Except String`, and the
engine is a deterministic function of an `EngineEnv` describing what every
external effect does, together with a trace of the calls it makes.
-/

namespace Maestro

/-- Step status in the manifest (`StepStatus` in manifest.ts). -/
inductive StepStatus
  | pending
  | running
  | completed
  | failed
  | skipped
deriving DecidableEq, Repr

/-- Run-level manifest status (`"pending" | "running" | "completed" | "failed"`). -/
inductive ManifestStatus
  | pending
  | running
  | completed
  | failed
deriving DecidableEq, Repr

/-- Step entry in the manifest (`ManifestStep` in manifest.ts). Optional
TypeScript fields become `Option`. -/
structure ManifestStep where
  id : String
  agent : String
  status : StepStatus
  startedAt : Option String := none
  completedAt : Option String := none
  error : Option String := none
  artifacts : List String
deriving DecidableEq, Repr

/-- Workflow run manifest (`WorkflowManifest` in manifest.ts). -/
structure WorkflowManifest where
  id : String
  workflowName : String
  workflowDescription : Option String := none
  status : ManifestStatus
  input : Option String := none
  startedAt : String
  completedAt : Option String := none
  error : Option String := none
  steps : List ManifestStep
deriving DecidableEq, Repr

/-- `createManifest` from manifest.ts. The `new Date().toISOString()` call
is embedded as the explicit `now` argument. -/
def createManifest (runId workflowName : String) (input : Option String)
    (description : Option String) (now : String) : WorkflowManifest :=
  { id := runId
    workflowName := workflowName
    workflowDescription := description
    status := .pending
    input := input
    startedAt := now
    completedAt := none
    error := none
    steps := [] }

/-- `addManifestStep` from manifest.ts: append a pending step. -/
def addManifestStep (manifest : WorkflowManifest) (stepId agentName : String) :
    WorkflowManifest :=
  { manifest with
    steps := manifest.steps ++
      [{ id := stepId
         agent := agentName
         status := .pending
         startedAt := none
         completedAt := none
         error := none
         artifacts := [] }] }

/-- `Partial<ManifestStep>` for `updateManifestStep`. An outer `none` means
the property is absent from the update object; for the optional TypeScript
fields a present property may itself hold `undefined`, hence
`Option (Option String)`. -/
structure ManifestStepUpdate where
  id : Option String := none
  agent : Option String := none
  status : Option StepStatus := none
  startedAt : Option (Option String) := none
  completedAt : Option (Option String) := none
  error : Option (Option String) := none
  artifacts : Option (List String) := none
deriving DecidableEq, Repr

/-- The object spread `{ ...step, ...update }`: every property present on
the update overrides the step's. -/
def mergeManifestStep (step : ManifestStep) (update : ManifestStepUpdate) :
    ManifestStep :=
  { id := update.id.getD step.id
    agent := update.agent.getD step.agent
    status := update.status.getD step.status
    startedAt := update.startedAt.getD step.startedAt
    completedAt := update.completedAt.getD step.completedAt
    error := update.error.getD step.error
    artifacts := update.artifacts.getD step.artifacts }

/-- `updateManifestStep` from manifest.ts:
`steps.map(step => step.id === stepId ? { ...step, ...update } : step)`. -/
def updateManifestStep (manifest : WorkflowManifest) (stepId : String)
    (update : ManifestStepUpdate) : WorkflowManifest :=
  { manifest with
    steps := manifest.steps.map fun step =>
      if step.id = stepId then mergeManifestStep step update else step }

/-- `startManifest` from manifest.ts. -/
def startManifest (manifest : WorkflowManifest) : WorkflowManifest :=
  { manifest with status := .running }

/-- `completeManifest` from manifest.ts (`now` embeds `new Date().toISOString()`). -/
def completeManifest (manifest : WorkflowManifest) (now : String) :
    WorkflowManifest :=
  { manifest with status := .completed, completedAt := some now }

/-- `failManifest` from manifest.ts. -/
def failManifest (manifest : WorkflowManifest) (error : String) (now : String) :
    WorkflowManifest :=
  { manifest with status := .failed, completedAt := some now, error := some error }

/-! ## Manifest persistence

`saveManifest` writes `JSON.stringify(manifest, null, 2)` to
`<runDir>/manifest.json`; `loadManifest` reads the file and returns
`JSON.parse(content) as WorkflowManifest`. The embedding works at the level
of the parsed JSON document: `JsonValue` is the abstract syntax of a JSON
text, `encodeManifest` is the document `JSON.stringify` produces
(`JSON.stringify` omits every property whose value is `undefined`), and
`decodeManifest` reads the fields of a parsed document back as a
`WorkflowManifest` — i.e. it expresses when the object `JSON.parse`
returned is structurally equal to a given manifest. -/

/-- Abstract syntax of a JSON document. -/
inductive JsonValue
  | null
  | bool (b : Bool)
  | str (s : String)
  | arr (elems : List JsonValue)
  | obj (fields : List (String × JsonValue))

/-- The string `JSON.stringify` writes for a `StepStatus`. -/
def StepStatus.toJsonString : StepStatus → String
  | .pending => "pending"
  | .running => "running"
  | .completed => "completed"
  | .failed => "failed"
  | .skipped => "skipped"

/-- Reading a `StepStatus` back from its JSON string. -/
def StepStatus.ofJsonString : String → Option StepStatus
  | "pending" => some .pending
  | "running" => some .running
  | "completed" => some .completed
  | "failed" => some .failed
  | "skipped" => some .skipped
  | _ => none

/-- The string `JSON.stringify` writes for a `ManifestStatus`. -/
def ManifestStatus.toJsonString : ManifestStatus → String
  | .pending => "pending"
  | .running => "running"
  | .completed => "completed"
  | .failed => "failed"

/-- Reading a `ManifestStatus` back from its JSON string. -/
def ManifestStatus.ofJsonString : String → Option ManifestStatus
  | "pending" => some .pending
  | "running" => some .running
  | "completed" => some .completed
  | "failed" => some .failed
  | _ => none

/-- A property of an optional string field: absent when the value is
`undefined` (`JSON.stringify` drops it), present otherwise. -/
def optStrField (name : String) : Option String → List (String × JsonValue)
  | none => []
  | some s => [(name, .str s)]

/-- The JSON object `JSON.stringify` produces for a `ManifestStep`. -/
def encodeManifestStep (s : ManifestStep) : JsonValue :=
  .obj ([("id", .str s.id), ("agent", .str s.agent),
         ("status", .str s.status.toJsonString)]
    ++ optStrField "startedAt" s.startedAt
    ++ optStrField "completedAt" s.completedAt
    ++ optStrField "error" s.error
    ++ [("artifacts", .arr (s.artifacts.map .str))])

/-- The JSON document `JSON.stringify` produces for a `WorkflowManifest`. -/
def encodeManifest (m : WorkflowManifest) : JsonValue :=
  .obj ([("id", .str m.id), ("workflowName", .str m.workflowName)]
    ++ optStrField "workflowDescription" m.workflowDescription
    ++ [("status", .str m.status.toJsonString)]
    ++ optStrField "input" m.input
    ++ [("startedAt", .str m.startedAt)]
    ++ optStrField "completedAt" m.completedAt
    ++ optStrField "error" m.error
    ++ [("steps", .arr (m.steps.map encodeManifestStep))])

/-- Look a field up in a parsed JSON object. -/
def lookupField (fields : List (String × JsonValue)) (name : String) :
    Option JsonValue :=
  fields.lookup name

/-- Read a JSON value as a string, as TypeScript field access would. -/
def asString : JsonValue → Option String
  | .str s => some s
  | _ => none

/-- Decode every element of a JSON array, failing if any element fails. -/
def decodeEach {α : Type} (f : JsonValue → Option α) :
    List JsonValue → Option (List α)
  | [] => some []
  | x :: rest => (f x).bind fun y => (decodeEach f rest).map fun ys => y :: ys

/-- Read an optional string property of a parsed object (`none` when the
property is absent, matching an `undefined` optional field). -/
def readOptStr (fields : List (String × JsonValue)) (name : String) :
    Option (Option String) :=
  match lookupField fields name with
  | none => some none
  | some j => (asString j).map some

/-- Read a required string property of a parsed object. -/
def readStr (fields : List (String × JsonValue)) (name : String) :
    Option String :=
  (lookupField fields name).bind asString

/-- Read a parsed JSON value back as a `ManifestStep`. -/
def decodeManifestStep (j : JsonValue) : Option ManifestStep :=
  match j with
  | .obj fields =>
    match readStr fields "id", readStr fields "agent",
        (readStr fields "status").bind StepStatus.ofJsonString,
        readOptStr fields "startedAt", readOptStr fields "completedAt",
        readOptStr fields "error", lookupField fields "artifacts" with
    | some id, some agent, some status, some startedAt, some completedAt,
        some error, some (.arr elems) =>
      (decodeEach asString elems).map fun artifacts =>
        { id := id, agent := agent, status := status, startedAt := startedAt
          completedAt := completedAt, error := error, artifacts := artifacts }
    | _, _, _, _, _, _, _ => none
  | _ => none

/-- Read a parsed JSON document back as a `WorkflowManifest`. -/
def decodeManifest (j : JsonValue) : Option WorkflowManifest :=
  match j with
  | .obj fields =>
    match readStr fields "id", readStr fields "workflowName",
        readOptStr fields "workflowDescription",
        (readStr fields "status").bind ManifestStatus.ofJsonString,
        readOptStr fields "input", readStr fields "startedAt",
        readOptStr fields "completedAt", readOptStr fields "error",
        lookupField fields "steps" with
    | some id, some workflowName, some workflowDescription, some status,
        some input, some startedAt, some completedAt, some error,
        some (.arr elems) =>
      (decodeEach decodeManifestStep elems).map fun steps =>
        { id := id, workflowName := workflowName
          workflowDescription := workflowDescription, status := status
          input := input, startedAt := startedAt, completedAt := completedAt
          error := error, steps := steps }
    | _, _, _, _, _, _, _, _, _ => none
  | _ => none

/-- State of `<runDir>/manifest.json` as `loadManifest` observes it:
the file is missing, the file exists but `JSON.parse` throws on its text,
or the file exists and parses to a JSON document. -/
inductive ManifestFile
  | absent
  | malformed
  | parsed (j : JsonValue)

/-- How a `loadManifest` call can fail: `readFile` raising ENOENT because
no manifest file is present, or `JSON.parse` throwing on malformed JSON. -/
inductive ManifestLoadError
  | enoent
  | parseError
deriving DecidableEq, Repr

/-- `saveManifest` from manifest.ts: after the call, the run directory's
`manifest.json` holds the serialized manifest. -/
def saveManifest (m : WorkflowManifest) : ManifestFile :=
  .parsed (encodeManifest m)

/-- `loadManifest` from manifest.ts: `readFile` then `JSON.parse`; both
failures propagate. (The TypeScript `as WorkflowManifest` cast performs no
validation, so the function yields the parsed document itself.) -/
def loadManifest (file : ManifestFile) : Except ManifestLoadError JsonValue :=
  match file with
  | .absent => .error .enoent
  | .malformed => .error .parseError
  | .parsed j => .ok j

/-- `tryLoadManifest` from manifest.ts:
`try { return await loadManifest(runDir); } catch { return null; }` —
the catch clause is unconditional. -/
def tryLoadManifest (file : ManifestFile) : Option JsonValue :=
  match loadManifest file with
  | .ok j => some j
  | .error _ => none

/-! ## Workflow and agent definitions (types/workflow.ts, types/agent.ts)

The `automation` enums (`"full" | "partial"`) are carried as the literal
strings the zod schema validates, with default `"full"`. -/

/-- One step of a validated workflow (`WorkflowStepSchema`). -/
structure WorkflowStep where
  id : String
  agent : String
  automation : String := "full"
  inputs : Option (List String) := none
  outputs : Option (List String) := none
  next : Option String := none
  on_pass : Option String := none
  on_fail : Option String := none
  on_reject : Option String := none
  condition : Option String := none
deriving DecidableEq, Repr

/-- `timeouts` of `WorkflowConfigSchema` (`default` plus passthrough keys). -/
structure WorkflowTimeouts where
  default : Option String := none
  extra : List (String × String) := []
deriving DecidableEq, Repr

/-- `budget` of `WorkflowConfigSchema`. `max_cost_usd` is a JSON number;
the engine never reads it, so it is carried as a rational. -/
structure WorkflowBudget where
  max_tokens : Option Nat := none
  max_cost_usd : Option Rat := none
  on_exceed : Option String := none
deriving DecidableEq, Repr

/-- A validated workflow definition (`WorkflowConfigSchema`). -/
structure WorkflowConfig where
  name : String
  description : Option String := none
  steps : List WorkflowStep
  timeouts : Option WorkflowTimeouts := none
  budget : Option WorkflowBudget := none
deriving DecidableEq, Repr

/-- Agent configuration from markdown frontmatter (`AgentConfigSchema`). -/
structure AgentConfig where
  name : String
  role : String
  automation : String := "full"
  allowed_actions : Option (List String) := none
  forbidden_actions : Option (List String) := none
deriving DecidableEq, Repr

/-- A parsed agent definition (agent/parser.ts): frontmatter config plus
the markdown body used verbatim as the persona prompt. -/
structure AgentDefinition where
  config : AgentConfig
  prompt : String
deriving DecidableEq, Repr

/-! ## Run state and the step-transition resolver (workflow-engine.ts) -/

/-- Run status of `WorkflowRun`. -/
inductive RunStatus
  | pending
  | running
  | paused
  | completed
  | failed
deriving DecidableEq, Repr

/-- Artifact metadata (types/artifact.ts). `path` is kept as its
components, so that the deterministic `join(base, workflowId, stepId, name)`
layout is injective; `createdAt` is the `Date` as an ISO string; the
`Record<string, unknown>` metadata carries parsed JSON values. -/
structure Artifact where
  id : String
  workflowId : String
  stepId : String
  name : String
  type : String := "file"
  path : List String := []
  createdAt : String := ""
  metadata : Option (List (String × JsonValue)) := none

/-- `WorkflowRun` from workflow-engine.ts: the volatile in-process run
state. Timestamps are ISO strings from the environment clock. -/
structure WorkflowRun where
  id : String
  workflowName : String
  status : RunStatus
  currentStepId : Option String
  completedSteps : List String
  error : Option String := none
  createdAt : String
  updatedAt : String
  artifacts : List Artifact

/-- `WorkflowEngine.getNextStep`: the step-transition resolver, translated
clause for clause (`completedSteps.length === 0`, `steps.find`,
`!lastStep?.next`, `|| null`). The guard `if (!lastStep?.next) return null`
is JavaScript falsiness: it fires when `lastStep` is undefined, when `next`
is undefined, and also when `next` is the empty string — the zod schema
admits `""` for both `id` and `next`, so the empty-string case is reachable
on validated workflows. -/
def getNextStep (workflow : WorkflowConfig) (run : WorkflowRun) :
    Option WorkflowStep :=
  if run.completedSteps.isEmpty then
    workflow.steps.head?
  else
    match run.completedSteps.getLast? with
    | none => none
    | some lastCompletedId =>
      match workflow.steps.find? (fun s => s.id == lastCompletedId) with
      | none => none
      | some lastStep =>
        match lastStep.next with
        | none => none
        | some nextId =>
          if nextId = "" then none
          else workflow.steps.find? (fun s => s.id == nextId)

/-- The transition resolver as claim C6 and the specification word it: if
no step has completed yet, re-select the first declared step; otherwise
find the declared step matching the last completed id and return the
declared step named by its `next` field, with nothing only when that step
has no `next` field at all or no declared step matches. (This follows a
present `next` string even when it is empty — which is where the code
diverges.) -/
def specNextStep (workflow : WorkflowConfig) (run : WorkflowRun) :
    Option WorkflowStep :=
  match run.completedSteps.getLast? with
  | none => workflow.steps.head?
  | some lastCompletedId =>
    (workflow.steps.find? (fun s => s.id == lastCompletedId)).bind fun lastStep =>
      lastStep.next.bind fun nextId =>
        workflow.steps.find? (fun s => s.id == nextId)

/-- The transition resolver as amended: like `specNextStep`, but a `next`
field holding the empty string counts as unset (JavaScript falsiness),
yielding nothing. -/
def specNextStepFalsy (workflow : WorkflowConfig) (run : WorkflowRun) :
    Option WorkflowStep :=
  match run.completedSteps.getLast? with
  | none => workflow.steps.head?
  | some lastCompletedId =>
    (workflow.steps.find? (fun s => s.id == lastCompletedId)).bind fun lastStep =>
      lastStep.next.bind fun nextId =>
        if nextId = "" then none
        else workflow.steps.find? (fun s => s.id == nextId)

/-! ## InMemoryEventBus (events/memory-bus.ts)

Handlers are async closures; the embedding names them by an abstract id and
describes what each one does on a given event with a behavior function
`HandlerId → EngineEvent → Except String Unit` (`.error` = the handler
threw). A JavaScript `Set` iterates in insertion order and ignores
re-insertion of an element, which `setAdd` reproduces on lists. -/

/-- The lifecycle events the engine emits (types/events.ts), with the
`timestamp: new Date()` field carried as an ISO string. Only the
constructors the engine can produce are modelled; the declared-but-never
emitted taxonomy entries (`approval.required`, `budget.*`) are omitted. -/
inductive EngineEvent
  | workflowStarted (timestamp workflowId workflowName : String)
  | workflowCompleted (timestamp workflowId : String)
  | workflowFailed (timestamp workflowId error : String)
  | stepStarted (timestamp workflowId stepId agentName : String)
  | stepCompleted (timestamp workflowId stepId agentName : String)
      (artifacts : List String)
  | stepFailed (timestamp workflowId stepId agentName error : String)
deriving DecidableEq, Repr

/-- `event.type`: the discriminating tag string. -/
def EngineEvent.type : EngineEvent → String
  | .workflowStarted .. => "workflow.started"
  | .workflowCompleted .. => "workflow.completed"
  | .workflowFailed .. => "workflow.failed"
  | .stepStarted .. => "step.started"
  | .stepCompleted .. => "step.completed"
  | .stepFailed .. => "step.failed"

/-- Abstract identity of a registered handler closure. -/
abbrev HandlerId := Nat

/-- `Set.add`: append, unless the element is already present. -/
def setAdd (xs : List HandlerId) (h : HandlerId) : List HandlerId :=
  if h ∈ xs then xs else xs ++ [h]

/-- `InMemoryEventBus` state: `handlers : Map<string, Set<EventHandler>>`
and `anyHandlers : Set<EventHandler>`, both in insertion order. -/
structure InMemoryEventBus where
  handlers : List (String × List HandlerId) := []
  anyHandlers : List HandlerId := []
deriving DecidableEq, Repr

/-- Update the handler map at a key: `Map.set` keeps the key's position,
a new key is appended. -/
def mapSetAdd : List (String × List HandlerId) → String → HandlerId →
    List (String × List HandlerId)
  | [], eventType, h => [(eventType, [h])]
  | (k, v) :: rest, eventType, h =>
    if k = eventType then (k, setAdd v h) :: rest
    else (k, v) :: mapSetAdd rest eventType h

/-- `InMemoryEventBus.on`. -/
def busOn (bus : InMemoryEventBus) (eventType : String) (h : HandlerId) :
    InMemoryEventBus :=
  { bus with handlers := mapSetAdd bus.handlers eventType h }

/-- `InMemoryEventBus.onAny`. -/
def busOnAny (bus : InMemoryEventBus) (h : HandlerId) : InMemoryEventBus :=
  { bus with anyHandlers := setAdd bus.anyHandlers h }

/-- The handlers `emit` visits for an event type:
`this.handlers.get(event.type)` or none. -/
def typeHandlers (bus : InMemoryEventBus) (eventType : String) :
    List HandlerId :=
  (bus.handlers.lookup eventType).getD []

/-- Await each handler in order; a rejection stops the iteration. Returns
the handlers actually invoked, in invocation order, and the overall
outcome of the `emit` call. -/
def runHandlers (behavior : HandlerId → EngineEvent → Except String Unit)
    (event : EngineEvent) : List HandlerId → List HandlerId × Except String Unit
  | [] => ([], .ok ())
  | h :: rest =>
    match behavior h event with
    | .error e => ([h], .error e)
    | .ok () =>
      let (invoked, outcome) := runHandlers behavior event rest
      (h :: invoked, outcome)

/-- `InMemoryEventBus.emit`: all type-specific handlers for the event's
type, then all wildcard handlers, sequentially; a throwing handler aborts
the rest of the emit call. -/
def emit (behavior : HandlerId → EngineEvent → Except String Unit)
    (bus : InMemoryEventBus) (event : EngineEvent) :
    List HandlerId × Except String Unit :=
  runHandlers behavior event (typeHandlers bus event.type ++ bus.anyHandlers)

/-! ## FileSystemArtifactStore (artifacts/file-store.ts)

Paths are lists of components (`join` concatenates components, and the
deterministic layout `<base>/<workflowId>/<stepId>/<name>` is then
injective by construction). The file system visible to the store is a map
from paths to file contents plus the set of directories `mkdir` created;
the store itself adds the in-memory artifact index `Map<string, Artifact>`.
Functions needing both are passed and return the pair. -/

/-- File-system state: files by path, and the directories that exist. -/
structure FsState where
  files : List (List String × String) := []
  dirs : List (List String) := []

/-- `FileSystemArtifactStore` state: the base directory and the in-memory
artifact index keyed by artifact id (insertion-ordered, like `Map`). -/
structure FileSystemArtifactStore where
  baseDir : List String
  artifacts : List (String × Artifact) := []

/-- `Map.set` / overwriting file write on an association list: replace the
value in place if the key exists, else append. -/
def assocSet {α : Type} [BEq α] {β : Type} :
    List (α × β) → α → β → List (α × β)
  | [], k, v => [(k, v)]
  | (k', v') :: rest, k, v =>
    if k' == k then (k', v) :: rest else (k', v') :: assocSet rest k v

/-- `getRunDir`: `join(baseDir, workflowId)`. -/
def getRunDir (store : FileSystemArtifactStore) (workflowId : String) :
    List String :=
  store.baseDir ++ [workflowId]

/-- `getArtifactPath`: `join(baseDir, workflowId, stepId, name)`. -/
def getArtifactPath (store : FileSystemArtifactStore) (a : Artifact) :
    List String :=
  store.baseDir ++ [a.workflowId, a.stepId, a.name]

/-- `mkdir(dir, { recursive: true })`: the directory and all its ancestors
exist afterwards. -/
def mkdirRecursive (fs : FsState) (dir : List String) : FsState :=
  { fs with
    dirs := (List.range dir.length).foldl
      (fun acc k =>
        let d := dir.take (k + 1)
        if d ∈ acc then acc else acc ++ [d])
      fs.dirs }

/-- `FileSystemArtifactStore.save`: ensure the parent directory exists,
write the content, and index the artifact metadata under its id with the
resolved path. -/
def storeSave (store : FileSystemArtifactStore) (fs : FsState)
    (a : Artifact) (content : String) :
    FileSystemArtifactStore × FsState :=
  let filePath := getArtifactPath store a
  let fs := mkdirRecursive fs filePath.dropLast
  let fs := { fs with files := assocSet fs.files filePath content }
  let store :=
    { store with artifacts := assocSet store.artifacts a.id { a with path := filePath } }
  (store, fs)

/-- `FileSystemArtifactStore.load`: look the artifact up in the in-memory
index (`Artifact not found` otherwise) and read its file; a missing file
propagates as an I/O error. -/
def storeLoad (store : FileSystemArtifactStore) (fs : FsState)
    (artifactId : String) : Except String String :=
  match store.artifacts.lookup artifactId with
  | none => .error ("Artifact not found: " ++ artifactId)
  | some a =>
    match fs.files.lookup a.path with
    | none => .error "ENOENT"
    | some content => .ok content

/-- `FileSystemArtifactStore.list`: the indexed artifacts of one run. -/
def storeList (store : FileSystemArtifactStore) (workflowId : String) :
    List Artifact :=
  (store.artifacts.map Prod.snd).filter (fun a => a.workflowId == workflowId)

/-- Whether `p` lies inside directory `dir` (including `dir` itself). -/
def underDir (dir p : List String) : Bool :=
  p.take dir.length == dir

/-- `FileSystemArtifactStore.deleteWorkflow`: `rm -r` of the run directory
(ignoring a missing directory) and purge of the matching index entries. -/
def storeDeleteWorkflow (store : FileSystemArtifactStore) (fs : FsState)
    (workflowId : String) : FileSystemArtifactStore × FsState :=
  let runDir := getRunDir store workflowId
  let fs :=
    { files := fs.files.filter (fun e => !underDir runDir e.1)
      dirs := fs.dirs.filter (fun d => !underDir runDir d) }
  let store :=
    { store with
      artifacts := store.artifacts.filter (fun e => !(e.2.workflowId == workflowId)) }
  (store, fs)

/-- `FileSystemArtifactStore.runExists`: `stat(runDir)` succeeds and names
a directory. -/
def storeRunExists (store : FileSystemArtifactStore) (fs : FsState)
    (workflowId : String) : Bool :=
  getRunDir store workflowId ∈ fs.dirs

/-! ## WorkflowEngine.run (workflow-engine.ts)

`run` awaits four kinds of external effects: `new Date()` (a clock),
`saveManifest` (persistence, may reject), `eventBus.emit` (handlers, may
throw), `artifactStore.save` (may reject) and `executor.execute` (the
backend, may reject or return `success: false`). An `EngineEnv` fixes the
outcome of every such call, so `runEngine` is a pure function of it. The
engine runs in a small state monad `EngM` whose state carries the mutable
`run` and `manifest` variables of the TypeScript body (the `catch` block
reads their current values), a clock tick, and a trace of the external
calls made, in order. A `.error` result of the whole computation is a
promise rejection escaping `run` — i.e. `run` raising. -/

/-- `AgentExecutionInput` (types/agent.ts). -/
structure AgentExecutionInput where
  workflowId : String
  stepId : String
  agent : AgentConfig
  prompt : String
  inputs : List Artifact

/-- `tokenUsage` of `AgentExecutionOutput`. -/
structure TokenUsage where
  input : Nat
  output : Nat
  total : Nat
deriving DecidableEq, Repr

/-- `AgentExecutionOutput` (types/agent.ts). -/
structure AgentExecutionOutput where
  success : Bool
  artifacts : List Artifact
  error : Option String := none
  tokenUsage : Option TokenUsage := none

/-- Outcomes of every external effect `run` awaits. `runId` is the
`generateRunId()` result (a date component plus random suffix supplied by
the environment); `now k` is the value of the `k`-th `new Date()` call;
an `.error` outcome is the corresponding promise rejecting / handler
throwing. -/
structure EngineEnv where
  runId : String
  now : Nat → String
  saveOutcome : WorkflowManifest → Except String Unit
  emitOutcome : EngineEvent → Except String Unit
  artifactSaveOutcome : Artifact → String → Except String Unit
  execOutcome : AgentExecutionInput → Except String AgentExecutionOutput

/-- One observable external call of the engine, in call order:
`runs.set` / `manifests.set` registry writes, `saveManifest`,
`eventBus.emit`, `executor.execute` and `artifactStore.save` (registry
events record the value at registration time). -/
inductive EngineTraceEv
  | runRegistered (r : WorkflowRun)
  | manifestRegistered (m : WorkflowManifest)
  | savedManifest (m : WorkflowManifest)
  | emitted (e : EngineEvent)
  | executed (inp : AgentExecutionInput)
  | artifactSaved (a : Artifact) (content : String)

/-- Engine-local state: the clock tick, the current values of the mutable
`run` and `manifest` variables, and the call trace. -/
structure EngSt where
  tick : Nat
  runVar : WorkflowRun
  manifestVar : WorkflowManifest
  trace : List EngineTraceEv

/-- The engine's effect monad: state plus exceptions (`await` of a
rejecting promise propagates the rejection). -/
def EngM (α : Type) : Type :=
  EngSt → EngSt × Except String α

/-- Sequencing (`await x; f`): a rejection short-circuits. -/
def bindE {α β : Type} (x : EngM α) (f : α → EngM β) : EngM β := fun s =>
  match x s with
  | (s1, .ok a) => f a s1
  | (s1, .error e) => (s1, .error e)

/-- Return. -/
def pureE {α : Type} (a : α) : EngM α := fun s => (s, .ok a)

/-- `throw new Error(msg)`. -/
def throwE {α : Type} (msg : String) : EngM α := fun s => (s, .error msg)

/-- `try { x } catch (error) { handle }` (the handler sees the message and
the state, i.e. the current `run` / `manifest` variables, at throw time). -/
def catchE {α : Type} (x : EngM α) (handle : String → EngM α) : EngM α :=
  fun s =>
    match x s with
    | (s1, .error e) => handle e s1
    | r => r

/-- `new Date()`: the next clock value. -/
def freshNow (env : EngineEnv) : EngM String := fun s =>
  ({ s with tick := s.tick + 1 }, .ok (env.now s.tick))

/-- Read the mutable `run` variable. -/
def getRunVar : EngM WorkflowRun := fun s => (s, .ok s.runVar)

/-- Mutate the `run` variable. -/
def setRunVar (r : WorkflowRun) : EngM Unit := fun s =>
  ({ s with runVar := r }, .ok ())

/-- Read the mutable `manifest` variable. -/
def getManifestVar : EngM WorkflowManifest := fun s => (s, .ok s.manifestVar)

/-- Mutate the `manifest` variable. -/
def setManifestVar (m : WorkflowManifest) : EngM Unit := fun s =>
  ({ s with manifestVar := m }, .ok ())

/-- Record an infallible registry write (`runs.set` / `manifests.set`). -/
def recordTrace (ev : EngineTraceEv) : EngM Unit := fun s =>
  ({ s with trace := s.trace ++ [ev] }, .ok ())

/-- `await saveManifest(runDir, m)`: traced, outcome from the environment. -/
def engSaveManifest (env : EngineEnv) (m : WorkflowManifest) : EngM Unit :=
  fun s => ({ s with trace := s.trace ++ [.savedManifest m] }, env.saveOutcome m)

/-- `await this.eventBus.emit(e)`: traced, outcome from the environment. -/
def engEmit (env : EngineEnv) (e : EngineEvent) : EngM Unit := fun s =>
  ({ s with trace := s.trace ++ [.emitted e] }, env.emitOutcome e)

/-- `await this.executor.execute(inp)`: traced, outcome from the environment. -/
def engExecute (env : EngineEnv) (inp : AgentExecutionInput) :
    EngM AgentExecutionOutput := fun s =>
  ({ s with trace := s.trace ++ [.executed inp] }, env.execOutcome inp)

/-- `await this.artifactStore.save(a, content)`: traced, outcome from the
environment. -/
def engArtifactSave (env : EngineEnv) (a : Artifact) (content : String) :
    EngM Unit := fun s =>
  ({ s with trace := s.trace ++ [.artifactSaved a content] },
   env.artifactSaveOutcome a content)

/-- `buildAgentPrompt`: persona, blank line, `# Task`, the user input,
joined with newlines. -/
def buildAgentPrompt (agentDef : AgentDefinition) (userInput : String) :
    String :=
  String.intercalate "\n" [agentDef.prompt, "", "# Task", userInput]

/-- The placeholder content `run` stores for each returned artifact. -/
def placeholderArtifactContent : String :=
  "# Result\n\nAgent completed successfully."

/-- The JavaScript `o || fallback` on an optional string: `undefined` and
the empty string are both falsy, so both fall back. -/
def orFalsy (o : Option String) (fallback : String) : String :=
  match o with
  | none => fallback
  | some s => if s = "" then fallback else s

/-- The artifact loop of the success branch: save each artifact through
the store and push it onto `run.artifacts`; a store rejection aborts the
loop (and is caught by the top-level catch). -/
def saveArtifacts (env : EngineEnv) : List Artifact → EngM Unit
  | [] => pureE ()
  | a :: rest =>
    bindE (engArtifactSave env a placeholderArtifactContent) fun _ =>
    bindE getRunVar fun run =>
    bindE (setRunVar { run with artifacts := run.artifacts ++ [a] }) fun _ =>
    saveArtifacts env rest

/-- The `catch` block of `run`: mark the run failed, fold the error into
the manifest, persist, register and emit `workflow.failed`, return the
run. Note that the `saveManifest` and `emit` awaited here can themselves
reject, in which case `run` raises after all. -/
def handleRunError (env : EngineEnv) (errorMessage : String) :
    EngM WorkflowRun :=
  bindE getRunVar fun run0 =>
  bindE (freshNow env) fun ts =>
  let run := { run0 with
    status := RunStatus.failed
    error := some errorMessage
    updatedAt := ts }
  bindE (setRunVar run) fun _ =>
  bindE getManifestVar fun manifest0 =>
  bindE (freshNow env) fun ts2 =>
  let manifest := failManifest manifest0 errorMessage ts2
  bindE (setManifestVar manifest) fun _ =>
  bindE (engSaveManifest env manifest) fun _ =>
  bindE (recordTrace (.manifestRegistered manifest)) fun _ =>
  bindE (freshNow env) fun ts3 =>
  bindE (engEmit env (.workflowFailed ts3 env.runId errorMessage)) fun _ =>
  pureE run

/-- The `if (result.success)` branch of the `try` block: persist the
returned artifacts, mark the manifest step completed, emit
`step.completed`, complete the run and the manifest. -/
def stepSuccessTail (env : EngineEnv) (step : WorkflowStep)
    (result : AgentExecutionOutput) : EngM Unit :=
  bindE (saveArtifacts env result.artifacts) fun _ =>
  bindE getManifestVar fun manifest1 =>
  bindE (freshNow env) fun ts4 =>
  let manifest2 := updateManifestStep manifest1 step.id
    { status := some .completed, completedAt := some (some ts4)
      artifacts := some (result.artifacts.map fun a => step.id ++ "/" ++ a.name) }
  bindE (setManifestVar manifest2) fun _ =>
  bindE (freshNow env) fun ts5 =>
  bindE (engEmit env (.stepCompleted ts5 env.runId step.id step.agent
    (result.artifacts.map fun a => a.name))) fun _ =>
  bindE getRunVar fun run1 =>
  bindE (setRunVar { run1 with
    completedSteps := run1.completedSteps ++ [step.id]
    currentStepId := none, status := RunStatus.completed }) fun _ =>
  bindE getManifestVar fun manifest3 =>
  bindE (freshNow env) fun ts6 =>
  setManifestVar (completeManifest manifest3 ts6)

/-- The `else` branch of the `try` block (the backend reported
`success: false`): mark the manifest step failed, emit `step.failed`, fail
the run and the manifest. -/
def stepFailureTail (env : EngineEnv) (step : WorkflowStep)
    (result : AgentExecutionOutput) : EngM Unit :=
  bindE getManifestVar fun manifest1 =>
  bindE (freshNow env) fun ts4 =>
  let manifest2 := updateManifestStep manifest1 step.id
    { status := some .failed, completedAt := some (some ts4)
      error := some result.error }
  bindE (setManifestVar manifest2) fun _ =>
  bindE (freshNow env) fun ts5 =>
  bindE (engEmit env (.stepFailed ts5 env.runId step.id step.agent
    (orFalsy result.error "Unknown error"))) fun _ =>
  bindE getRunVar fun run1 =>
  bindE (setRunVar { run1 with
    status := RunStatus.failed
    error := result.error }) fun _ =>
  bindE getManifestVar fun manifest3 =>
  bindE (freshNow env) fun ts6 =>
  setManifestVar (failManifest manifest3 (orFalsy result.error "Unknown error") ts6)

/-- The `try` block of `run`: select the first step (v0.1.0 supports
single-step workflows), resolve its agent, mark it running, execute, and
fold the result into run, manifest and events. -/
def runStepPhase (env : EngineEnv) (workflow : WorkflowConfig)
    (agentDefinitions : List (String × AgentDefinition)) (input : String) :
    EngM WorkflowRun :=
  match workflow.steps.head? with
  | none => throwE "Workflow has no steps"
  | some step =>
    match agentDefinitions.lookup step.agent with
    | none => throwE ("Agent '" ++ step.agent ++ "' not found")
    | some agentDef =>
      bindE getRunVar fun run0 =>
      bindE (freshNow env) fun ts =>
      bindE (setRunVar { run0 with currentStepId := some step.id, updatedAt := ts })
        fun _ =>
      bindE getManifestVar fun manifest0 =>
      bindE (freshNow env) fun ts2 =>
      let manifest := updateManifestStep manifest0 step.id
        { status := some .running, startedAt := some (some ts2) }
      bindE (setManifestVar manifest) fun _ =>
      bindE (engSaveManifest env manifest) fun _ =>
      bindE (freshNow env) fun ts3 =>
      bindE (engEmit env (.stepStarted ts3 env.runId step.id step.agent)) fun _ =>
      let executionInput : AgentExecutionInput :=
        { workflowId := env.runId, stepId := step.id, agent := agentDef.config
          prompt := buildAgentPrompt agentDef input, inputs := [] }
      bindE (engExecute env executionInput) fun result =>
      bindE
        (if result.success then stepSuccessTail env step result
         else stepFailureTail env step result)
        fun _ =>
      bindE getManifestVar fun manifest4 =>
      bindE (engSaveManifest env manifest4) fun _ =>
      bindE (recordTrace (.manifestRegistered manifest4)) fun _ =>
      bindE getRunVar fun run2 =>
      bindE
        (if run2.status = RunStatus.completed then
          bindE (freshNow env) fun ts7 =>
          engEmit env (.workflowCompleted ts7 env.runId)
        else
          bindE (freshNow env) fun ts7 =>
          engEmit env (.workflowFailed ts7 env.runId (orFalsy run2.error "Unknown error")))
        fun _ =>
      bindE getRunVar fun run3 =>
      bindE (freshNow env) fun ts8 =>
      let run4 := { run3 with updatedAt := ts8 }
      bindE (setRunVar run4) fun _ =>
      pureE run4

/-- The `run` object as first registered in `this.runs` (status pending,
`createdAt` / `updatedAt` from the first two `new Date()` calls). -/
def initialRun (env : EngineEnv) (workflow : WorkflowConfig) : WorkflowRun :=
  { id := env.runId, workflowName := workflow.name, status := RunStatus.pending
    currentStepId := none, completedSteps := [], error := none
    createdAt := env.now 0, updatedAt := env.now 1, artifacts := [] }

/-- The manifest after `createManifest` and the `addManifestStep` loop over
the declared steps. -/
def initialManifest (env : EngineEnv) (workflow : WorkflowConfig)
    (input : String) : WorkflowManifest :=
  workflow.steps.foldl (fun m s => addManifestStep m s.id s.agent)
    (createManifest env.runId workflow.name (some input) workflow.description
      (env.now 2))

/-- `WorkflowEngine.run`: create the run and manifest, pre-register every
declared step, persist, emit `workflow.started`, then the `try` block with
its top-level `catch`. The first component is the final engine state (its
trace lists every external call in order); the second is the settled
promise: `.ok` a returned `WorkflowRun`, `.error` when `run` raised. -/
def runEngine (env : EngineEnv) (workflow : WorkflowConfig)
    (agentDefinitions : List (String × AgentDefinition)) (input : String) :
    EngSt × Except String WorkflowRun :=
  let run := initialRun env workflow
  let manifest := startManifest (initialManifest env workflow input)
  let st : EngSt :=
    { tick := 3, runVar := { run with status := RunStatus.running }
      manifestVar := manifest, trace := [.runRegistered run] }
  (bindE (recordTrace (.manifestRegistered manifest)) fun _ =>
   bindE (engSaveManifest env manifest) fun _ =>
   bindE (freshNow env) fun ts =>
   bindE (engEmit env (.workflowStarted ts env.runId workflow.name)) fun _ =>
   catchE (runStepPhase env workflow agentDefinitions input)
     (handleRunError env)) st

/-! ## Shared helper lemmas -/

/-- The steps list after `updateManifestStep`, pointwise. -/
lemma updateManifestStep_steps (m : WorkflowManifest) (stepId : String)
    (u : ManifestStepUpdate) :
    (updateManifestStep m stepId u).steps =
      m.steps.map fun step =>
        if step.id = stepId then mergeManifestStep step u else step := rfl

/-- `updateManifestStep` on a manifest none of whose steps carries the id
returns the manifest unchanged. -/
lemma updateManifestStep_of_not_mem (m : WorkflowManifest) (stepId : String)
    (u : ManifestStepUpdate) (h : ∀ s ∈ m.steps, s.id ≠ stepId) :
    updateManifestStep m stepId u = m := by
  have hgen : ∀ l : List ManifestStep, (∀ s ∈ l, s.id ≠ stepId) →
      (l.map fun step =>
        if step.id = stepId then mergeManifestStep step u else step) = l := by
    intro l hl
    induction l with
    | nil => rfl
    | cons a t ih =>
      simp only [List.map_cons, if_neg (hl a (by simp))]
      rw [ih fun s hs => hl s (by simp [hs])]
  have hsteps := hgen m.steps h
  cases m with
  | mk id workflowName workflowDescription status input startedAt completedAt error steps =>
    simp only [updateManifestStep] at *
    simp [hsteps]

/-! ## C6 — the step-transition resolver

The claim fails on the code at one reachable input: `getNextStep`'s guard
`if (!lastStep?.next) return null` uses JavaScript falsiness, so a `next`
field holding the empty string is treated as unset and the resolver
returns `null` — whereas the claim says the declared step named by the
`next` field is returned whenever the field is present and a declared step
matches. With a declared step whose id is the empty string (the schema
validates it), the two disagree. -/

/-- A declared step whose id is the empty string. -/
def emptyIdStep : WorkflowStep := { id := "", agent := "b" }

/-- A validated workflow whose first step's `next` field is present but
holds the empty string, naming `emptyIdStep`. -/
def emptyNextWorkflow : WorkflowConfig :=
  { name := "w"
    steps := [{ id := "x", agent := "a", next := some "" }, emptyIdStep] }

/-- A run of `emptyNextWorkflow` whose step `x` has completed. -/
def emptyNextRun : WorkflowRun :=
  { id := "r", workflowName := "w", status := RunStatus.running
    currentStepId := none, completedSteps := ["x"]
    createdAt := "t0", updatedAt := "t0", artifacts := [] }

/-- Counterexample to C6 as stated: after step `x` completes, its `next`
field is present and names the declared step with the empty id, so the
claim requires that step to be returned (`specNextStep` does return it) —
but the code's falsiness guard returns nothing. -/
theorem getNextStep_empty_next_counterexample :
    getNextStep emptyNextWorkflow emptyNextRun = none
    ∧ specNextStep emptyNextWorkflow emptyNextRun = some emptyIdStep :=
  ⟨rfl, rfl⟩

/-- C6 (amended). The step-transition resolver: with no completed step,
`getNextStep` re-selects the first declared step (or nothing for an empty
workflow); otherwise it finds the declared step matching the last
completed id, follows its `next` field, and yields nothing when `next` is
unset **or holds the empty string** (JavaScript falsiness) or names no
declared step — i.e. `getNextStep` agrees with `specNextStepFalsy`, the
resolver as the claim words it with the empty string counting as unset. -/
theorem getNextStep_eq_specNextStepFalsy (workflow : WorkflowConfig)
    (run : WorkflowRun) :
    getNextStep workflow run = specNextStepFalsy workflow run := by
  unfold getNextStep specNextStepFalsy
  rcases h : run.completedSteps.getLast? with _ | lastId
  · have : run.completedSteps = [] := List.getLast?_eq_none_iff.mp h
    simp [this]
  · have : ¬ run.completedSteps.isEmpty = true := by
      intro he
      rw [List.isEmpty_iff.mp he] at h
      simp at h
    simp only [this, if_neg, Bool.not_eq_true] at *
    rcases hf : workflow.steps.find? (fun s => s.id == lastId) with _ | lastStep
    · simp [h, hf]
    · rcases hn : lastStep.next with _ | nextId <;> simp [h, hf, hn]

/-! ## C8 — update-step merges exactly the matching step -/

/-- C8. `updateManifestStep` merges the update into exactly the steps
whose id matches (pointwise over positions, preserving length and order),
and is a structural no-op when no step carries the id. -/
theorem updateManifestStep_exact (m : WorkflowManifest) (stepId : String)
    (u : ManifestStepUpdate) :
    (updateManifestStep m stepId u).steps.length = m.steps.length
    ∧ (∀ i : Nat, (updateManifestStep m stepId u).steps.get? i =
        (m.steps.get? i).map fun s =>
          if s.id = stepId then mergeManifestStep s u else s)
    ∧ ((∀ s ∈ m.steps, s.id ≠ stepId) → updateManifestStep m stepId u = m) := by
  refine ⟨?_, ?_, updateManifestStep_of_not_mem m stepId u⟩
  · simp [updateManifestStep_steps]
  · intro i
    simp [updateManifestStep_steps, List.get?_eq_getElem?, List.getElem?_map]

/-- Witness for C8 at a concrete manifest: updating an absent step id is a
structural no-op. -/
theorem updateManifestStep_exact_witness :
    updateManifestStep
      { id := "r1", workflowName := "w", status := ManifestStatus.running
        startedAt := "t0"
        steps := [{ id := "greet", agent := "greeter"
                    status := StepStatus.pending, artifacts := [] }] }
      "absent"
      { status := some StepStatus.running } =
    { id := "r1", workflowName := "w", status := ManifestStatus.running
      startedAt := "t0"
      steps := [{ id := "greet", agent := "greeter"
                  status := StepStatus.pending, artifacts := [] }] } :=
  (updateManifestStep_exact _ "absent" _).2.2 (by decide)

/-! ## C10 — frame properties of the manifest transitions -/

/-- C10. Frame property: `startManifest`, `completeManifest` and
`failManifest` leave `id`, `workflowName`, `workflowDescription`, `input`,
`startedAt` and the steps list unchanged; `startManifest` additionally
leaves `completedAt` and `error` unchanged, `completeManifest` leaves
`error` unchanged; and `updateManifestStep` leaves every run-level field
and every step at a position whose id differs from the given id unchanged. -/
theorem manifestTransitions_frame (m : WorkflowManifest)
    (now err stepId : String) (u : ManifestStepUpdate) :
    ((startManifest m).id = m.id
      ∧ (startManifest m).workflowName = m.workflowName
      ∧ (startManifest m).workflowDescription = m.workflowDescription
      ∧ (startManifest m).input = m.input
      ∧ (startManifest m).startedAt = m.startedAt
      ∧ (startManifest m).steps = m.steps
      ∧ (startManifest m).completedAt = m.completedAt
      ∧ (startManifest m).error = m.error)
    ∧ ((completeManifest m now).id = m.id
      ∧ (completeManifest m now).workflowName = m.workflowName
      ∧ (completeManifest m now).workflowDescription = m.workflowDescription
      ∧ (completeManifest m now).input = m.input
      ∧ (completeManifest m now).startedAt = m.startedAt
      ∧ (completeManifest m now).steps = m.steps
      ∧ (completeManifest m now).error = m.error)
    ∧ ((failManifest m err now).id = m.id
      ∧ (failManifest m err now).workflowName = m.workflowName
      ∧ (failManifest m err now).workflowDescription = m.workflowDescription
      ∧ (failManifest m err now).input = m.input
      ∧ (failManifest m err now).startedAt = m.startedAt
      ∧ (failManifest m err now).steps = m.steps)
    ∧ ((updateManifestStep m stepId u).id = m.id
      ∧ (updateManifestStep m stepId u).workflowName = m.workflowName
      ∧ (updateManifestStep m stepId u).workflowDescription = m.workflowDescription
      ∧ (updateManifestStep m stepId u).status = m.status
      ∧ (updateManifestStep m stepId u).input = m.input
      ∧ (updateManifestStep m stepId u).startedAt = m.startedAt
      ∧ (updateManifestStep m stepId u).completedAt = m.completedAt
      ∧ (updateManifestStep m stepId u).error = m.error
      ∧ ∀ i : Nat, ∀ s, m.steps.get? i = some s → s.id ≠ stepId →
          (updateManifestStep m stepId u).steps.get? i = some s) := by
  refine ⟨⟨rfl, rfl, rfl, rfl, rfl, rfl, rfl, rfl⟩,
    ⟨rfl, rfl, rfl, rfl, rfl, rfl, rfl⟩,
    ⟨rfl, rfl, rfl, rfl, rfl, rfl⟩,
    ⟨rfl, rfl, rfl, rfl, rfl, rfl, rfl, rfl, ?_⟩⟩
  intro i s hget hid
  simp only [List.get?_eq_getElem?] at hget ⊢
  simp [updateManifestStep_steps, List.getElem?_map, hget, hid]

/-- Witness for C10 at a concrete manifest and step position. -/
theorem manifestTransitions_frame_witness :
    (updateManifestStep
      { id := "r1", workflowName := "w", status := ManifestStatus.running
        startedAt := "t0"
        steps := [{ id := "greet", agent := "greeter"
                    status := StepStatus.pending, artifacts := [] }] }
      "other" { status := some StepStatus.running }).steps.get? 0 =
      some { id := "greet", agent := "greeter"
             status := StepStatus.pending, artifacts := [] } :=
  ((manifestTransitions_frame _ "t1" "boom" "other"
      { status := some StepStatus.running }).2.2.2.2.2.2.2.2.2.2.2 0
    { id := "greet", agent := "greeter"
      status := StepStatus.pending, artifacts := [] }
    (by decide) (by decide))

/-! ## C5 — manifest save/load round trip -/

/-- Decoding a step status string written by encoding recovers the status. -/
lemma stepStatus_ofJson_toJson (st : StepStatus) :
    StepStatus.ofJsonString st.toJsonString = some st := by
  cases st <;> rfl

/-- Decoding a manifest status string written by encoding recovers it. -/
lemma manifestStatus_ofJson_toJson (st : ManifestStatus) :
    ManifestStatus.ofJsonString st.toJsonString = some st := by
  cases st <;> rfl

/-- Reading back a string array written as `arr (xs.map str)`. -/
lemma mapM_asString_map_str (xs : List String) :
    decodeEach asString (xs.map JsonValue.str) = some xs := by
  induction xs with
  | nil => rfl
  | cons x t ih => simp [ih, asString, decodeEach]

/-- Round trip of one manifest step through its JSON object. -/
lemma decodeManifestStep_encodeManifestStep (s : ManifestStep) :
    decodeManifestStep (encodeManifestStep s) = some s := by
  rcases s with ⟨id, agent, status, startedAt, completedAt, error, artifacts⟩
  rcases startedAt with _ | sa <;> rcases completedAt with _ | ca <;>
    rcases error with _ | er <;>
    simp [decodeManifestStep, encodeManifestStep, optStrField, readStr,
      readOptStr, lookupField, asString, List.lookup,
      stepStatus_ofJson_toJson, mapM_asString_map_str]

/-- Reading back the steps array written by encoding. -/
lemma mapM_decodeManifestStep (steps : List ManifestStep) :
    decodeEach decodeManifestStep (steps.map encodeManifestStep) = some steps := by
  induction steps with
  | nil => rfl
  | cons s t ih => simp [ih, decodeManifestStep_encodeManifestStep, decodeEach]

/-- C5. Round-trip law: `loadManifest` after `saveManifest` succeeds and
returns the document `saveManifest` wrote, and that document reads back as
a manifest structurally equal to the original — every field, the optional
ones (present or absent) and the full ordered step list included. -/
theorem saveManifest_loadManifest_roundtrip (m : WorkflowManifest) :
    loadManifest (saveManifest m) = .ok (encodeManifest m)
    ∧ decodeManifest (encodeManifest m) = some m := by
  refine ⟨rfl, ?_⟩
  rcases m with ⟨id, workflowName, workflowDescription, status, input,
    startedAt, completedAt, error, steps⟩
  rcases workflowDescription with _ | d <;> rcases input with _ | inp <;>
    rcases completedAt with _ | ca <;> rcases error with _ | er <;>
    simp [decodeManifest, encodeManifest, optStrField, readStr, readOptStr,
      lookupField, asString, List.lookup, manifestStatus_ofJson_toJson,
      mapM_decodeManifestStep]

/-! ## C2 — tryLoadManifest and load-failure classification

The specification requires `tryLoadManifest` to yield an absent value only
when no manifest file is present, and to propagate any other failure, a
parse error on malformed JSON included. The implementation's `catch`
clause is unconditional, so a malformed manifest file also comes back as
`null`: the code contradicts the required classification. -/

/-- C2 (failing input). On a run directory whose `manifest.json` exists
but holds malformed JSON, `loadManifest` fails with the parse error — yet
`tryLoadManifest` swallows it and returns the absent value, exactly as it
does for a missing file. -/
theorem tryLoadManifest_swallows_parse_failure :
    loadManifest ManifestFile.malformed = .error ManifestLoadError.parseError
    ∧ tryLoadManifest ManifestFile.malformed = none
    ∧ tryLoadManifest ManifestFile.absent = none :=
  ⟨rfl, rfl, rfl⟩

/-! ## C4 — emit order and abort-on-failure -/

/-- `runHandlers` when every handler resolves: all are invoked, in order. -/
lemma runHandlers_all_ok (behavior : HandlerId → EngineEvent → Except String Unit)
    (event : EngineEvent) :
    ∀ hs : List HandlerId, (∀ h ∈ hs, behavior h event = .ok ()) →
      runHandlers behavior event hs = (hs, .ok ()) := by
  intro hs
  induction hs with
  | nil => intro _; rfl
  | cons h t ih =>
    intro hok
    have hh : behavior h event = .ok () := hok h (by simp)
    simp [runHandlers, hh, ih fun x hx => hok x (by simp [hx])]

/-- `runHandlers` when the handler at position `k` is the first to throw:
exactly the first `k + 1` handlers are invoked and the error propagates. -/
lemma runHandlers_first_error
    (behavior : HandlerId → EngineEvent → Except String Unit)
    (event : EngineEvent) (err : String) :
    ∀ (hs : List HandlerId) (k : Nat) (hk : k < hs.length),
      behavior (hs.get ⟨k, hk⟩) event = .error err →
      (∀ j (hj : j < k), behavior (hs.get ⟨j, Nat.lt_trans hj hk⟩) event = .ok ()) →
      runHandlers behavior event hs = (hs.take (k + 1), .error err) := by
  intro hs
  induction hs with
  | nil => intro k hk; exact absurd hk (by simp)
  | cons h t ih =>
    intro k hk herr hbefore
    cases k with
    | zero =>
      simp only [List.get] at herr
      simp [runHandlers, herr]
    | succ k' =>
      have hh : behavior h event = .ok () := by
        have := hbefore 0 (Nat.succ_pos k')
        simpa using this
      have hk' : k' < t.length := Nat.lt_of_succ_lt_succ hk
      have herr' : behavior (t.get ⟨k', hk'⟩) event = .error err := by
        simpa using herr
      have hbefore' : ∀ j (hj : j < k'),
          behavior (t.get ⟨j, Nat.lt_trans hj hk'⟩) event = .ok () := by
        intro j hj
        have := hbefore (j + 1) (Nat.succ_lt_succ hj)
        simpa using this
      simp [runHandlers, hh, ih k' hk' herr' hbefore']

/-- C4. `emit` invokes the type-specific handlers for the event's type and
then the wildcard handlers — the concatenation, each list in registration
order — awaiting each before the next: when every handler resolves, all of
them run in that order; when the handler at position `k` of the
concatenation is the first to throw, exactly the first `k + 1` handlers
ran and the remaining invocations of that emit call are aborted. -/
theorem emit_order_and_abort
    (behavior : HandlerId → EngineEvent → Except String Unit)
    (bus : InMemoryEventBus) (event : EngineEvent) :
    ((∀ h ∈ typeHandlers bus event.type ++ bus.anyHandlers,
        behavior h event = .ok ()) →
      emit behavior bus event =
        (typeHandlers bus event.type ++ bus.anyHandlers, .ok ()))
    ∧ (∀ (k : Nat) (err : String)
        (hk : k < (typeHandlers bus event.type ++ bus.anyHandlers).length),
        behavior ((typeHandlers bus event.type ++ bus.anyHandlers).get ⟨k, hk⟩)
            event = .error err →
        (∀ j (hj : j < k),
          behavior ((typeHandlers bus event.type ++ bus.anyHandlers).get
              ⟨j, Nat.lt_trans hj hk⟩) event = .ok ()) →
        emit behavior bus event =
          ((typeHandlers bus event.type ++ bus.anyHandlers).take (k + 1),
           .error err)) := by
  constructor
  · intro hok
    exact runHandlers_all_ok behavior event _ hok
  · intro k err hk herr hbefore
    exact runHandlers_first_error behavior event err _ k hk herr hbefore

/-- Witness for C4 at a concrete bus: two `step.started` handlers and one
wildcard handler registered; the second type handler throws, so the first
two handlers run and the wildcard handler is never invoked. -/
theorem emit_order_and_abort_witness :
    emit
      (fun h _ => if h = 2 then .error "boom" else .ok ())
      (busOnAny (busOn (busOn { } "step.started" 1) "step.started" 2) 3)
      (.stepStarted "t" "r1" "greet" "greeter") = ([1, 2], .error "boom") :=
  (emit_order_and_abort
      (fun h _ => if h = 2 then .error "boom" else .ok ())
      (busOnAny (busOn (busOn { } "step.started" 1) "step.started" 2) 3)
      (.stepStarted "t" "r1" "greet" "greeter")).2 1 "boom"
    (by decide) rfl
    (by
      intro j hj
      have hj0 : j = 0 := by omega
      subst hj0
      rfl)

/-! ## C7 — artifact store: save/load and deleteWorkflow -/

/-- Looking up the key an `assocSet` just wrote yields the written value. -/
lemma assocSet_lookup_self {α : Type} [BEq α] [LawfulBEq α] {β : Type}
    (l : List (α × β)) (k : α) (v : β) :
    (assocSet l k v).lookup k = some v := by
  induction l with
  | nil => simp [assocSet, List.lookup]
  | cons kv rest ih =>
    rcases kv with ⟨k', v'⟩
    by_cases hk : k' == k
    · have hkk : k' = k := eq_of_beq hk
      subst hkk
      simp [assocSet, List.lookup]
    · simp only [assocSet, hk, Bool.false_eq_true, if_false]
      have hk' : (k == k') = false := by
        rcases hbeq : k == k' with _ | _
        · rfl
        · exact absurd (by simp [eq_of_beq hbeq]) hk
      simp [List.lookup, hk', ih]

/-- `mkdirRecursive` leaves the files untouched. -/
lemma mkdirRecursive_files (fs : FsState) (dir : List String) :
    (mkdirRecursive fs dir).files = fs.files := rfl

/-- C7. `save` then `load` of the same artifact id returns exactly the
saved content; and after `deleteWorkflow` of a run id, `list` of that run
id is empty and `runExists` of it is false — from any store and
file-system state. -/
theorem artifactStore_save_load_delete (store : FileSystemArtifactStore)
    (fs : FsState) (a : Artifact) (content : String) (workflowId : String) :
    storeLoad (storeSave store fs a content).1 (storeSave store fs a content).2
        a.id = .ok content
    ∧ storeList (storeDeleteWorkflow store fs workflowId).1 workflowId = []
    ∧ storeRunExists (storeDeleteWorkflow store fs workflowId).1
        (storeDeleteWorkflow store fs workflowId).2 workflowId = false := by
  refine ⟨?_, ?_, ?_⟩
  · simp only [storeSave, storeLoad, mkdirRecursive_files]
    rw [assocSet_lookup_self]
    simp only []
    rw [assocSet_lookup_self]
  · simp only [storeDeleteWorkflow, storeList]
    induction store.artifacts with
    | nil => rfl
    | cons kv rest ih =>
      by_cases hw : kv.2.workflowId == workflowId
      · simp only [List.filter_cons, hw]
        simp only [Bool.not_true, Bool.false_eq_true, if_false]
        exact ih
      · simp only [List.filter_cons, hw]
        simp only [Bool.not_false, if_true, List.map_cons, List.filter_cons, hw]
        exact ih
  · simp only [storeDeleteWorkflow, storeRunExists, getRunDir,
      decide_eq_false_iff_not]
    intro hmem
    have hp : underDir (store.baseDir ++ [workflowId])
        (store.baseDir ++ [workflowId]) = true := by
      simp [underDir]
    have := List.of_mem_filter hmem
    simp [hp] at this

/-! ## Engine helper lemmas -/

/-- The manifest built before the `try` block carries one pending step per
declared workflow step, in declared order. -/
lemma initialManifest_steps (env : EngineEnv) (wf : WorkflowConfig)
    (input : String) :
    (initialManifest env wf input).steps =
      wf.steps.map fun s =>
        { id := s.id, agent := s.agent, status := StepStatus.pending
          startedAt := none, completedAt := none, error := none
          artifacts := [] } := by
  have hgen : ∀ (steps : List WorkflowStep) (m : WorkflowManifest),
      (steps.foldl (fun m s => addManifestStep m s.id s.agent) m).steps =
        m.steps ++ steps.map fun s =>
          { id := s.id, agent := s.agent, status := StepStatus.pending
            startedAt := none, completedAt := none, error := none
            artifacts := [] } := by
    intro steps
    induction steps with
    | nil => intro m; simp
    | cons s t ih =>
      intro m
      rw [List.foldl_cons, ih]
      simp [addManifestStep]
  simp [initialManifest, hgen, createManifest]

/-- An `EngM` computation only ever appends to the call trace. -/
def extendsTrace {α : Type} (x : EngM α) : Prop :=
  ∀ s : EngSt, ∃ t, ((x s).1).trace = s.trace ++ t

lemma extendsTrace_pureE {α : Type} (a : α) : extendsTrace (pureE a) :=
  fun s => ⟨[], by simp [pureE]⟩

lemma extendsTrace_throwE {α : Type} (msg : String) :
    extendsTrace (throwE (α := α) msg) :=
  fun s => ⟨[], by simp [throwE]⟩

lemma extendsTrace_getRunVar : extendsTrace getRunVar :=
  fun s => ⟨[], by simp [getRunVar]⟩

lemma extendsTrace_setRunVar (r : WorkflowRun) : extendsTrace (setRunVar r) :=
  fun s => ⟨[], by simp [setRunVar]⟩

lemma extendsTrace_getManifestVar : extendsTrace getManifestVar :=
  fun s => ⟨[], by simp [getManifestVar]⟩

lemma extendsTrace_setManifestVar (m : WorkflowManifest) :
    extendsTrace (setManifestVar m) :=
  fun s => ⟨[], by simp [setManifestVar]⟩

lemma extendsTrace_freshNow (env : EngineEnv) : extendsTrace (freshNow env) :=
  fun s => ⟨[], by simp [freshNow]⟩

lemma extendsTrace_recordTrace (ev : EngineTraceEv) :
    extendsTrace (recordTrace ev) :=
  fun s => ⟨[ev], by simp [recordTrace]⟩

lemma extendsTrace_engSaveManifest (env : EngineEnv) (m : WorkflowManifest) :
    extendsTrace (engSaveManifest env m) :=
  fun s => ⟨[.savedManifest m], by simp [engSaveManifest]⟩

lemma extendsTrace_engEmit (env : EngineEnv) (e : EngineEvent) :
    extendsTrace (engEmit env e) :=
  fun s => ⟨[.emitted e], by simp [engEmit]⟩

lemma extendsTrace_engExecute (env : EngineEnv) (inp : AgentExecutionInput) :
    extendsTrace (engExecute env inp) :=
  fun s => ⟨[.executed inp], by simp [engExecute]⟩

lemma extendsTrace_engArtifactSave (env : EngineEnv) (a : Artifact)
    (content : String) : extendsTrace (engArtifactSave env a content) :=
  fun s => ⟨[.artifactSaved a content], by simp [engArtifactSave]⟩

lemma extendsTrace_bindE {α β : Type} {x : EngM α} {f : α → EngM β}
    (hx : extendsTrace x) (hf : ∀ a, extendsTrace (f a)) :
    extendsTrace (bindE x f) := by
  intro s
  obtain ⟨t1, ht1⟩ := hx s
  rcases hres : x s with ⟨s1, r⟩
  rw [hres] at ht1
  dsimp only at ht1
  cases r with
  | ok a =>
    have hbind : (bindE x f) s = f a s1 := by unfold bindE; rw [hres]
    obtain ⟨t2, ht2⟩ := hf a s1
    exact ⟨t1 ++ t2, by rw [hbind, ht2, ht1, List.append_assoc]⟩
  | error e =>
    have hbind : (bindE x f) s = (s1, .error e) := by unfold bindE; rw [hres]
    exact ⟨t1, by rw [hbind]; exact ht1⟩

lemma extendsTrace_catchE {α : Type} {x : EngM α} {h : String → EngM α}
    (hx : extendsTrace x) (hh : ∀ e, extendsTrace (h e)) :
    extendsTrace (catchE x h) := by
  intro s
  obtain ⟨t1, ht1⟩ := hx s
  rcases hres : x s with ⟨s1, r⟩
  rw [hres] at ht1
  dsimp only at ht1
  cases r with
  | ok a =>
    have hcatch : (catchE x h) s = (s1, .ok a) := by unfold catchE; rw [hres]
    exact ⟨t1, by rw [hcatch]; exact ht1⟩
  | error e =>
    have hcatch : (catchE x h) s = h e s1 := by unfold catchE; rw [hres]
    obtain ⟨t2, ht2⟩ := hh e s1
    exact ⟨t1 ++ t2, by rw [hcatch, ht2, ht1, List.append_assoc]⟩

lemma extendsTrace_ite {α : Type} (c : Prop) [Decidable c] {x y : EngM α}
    (hx : extendsTrace x) (hy : extendsTrace y) :
    extendsTrace (if c then x else y) := by
  by_cases hc : c
  · rw [if_pos hc]; exact hx
  · rw [if_neg hc]; exact hy

lemma extendsTrace_saveArtifacts (env : EngineEnv) (arts : List Artifact) :
    extendsTrace (saveArtifacts env arts) := by
  induction arts with
  | nil => exact extendsTrace_pureE ()
  | cons a rest ih =>
    exact extendsTrace_bindE (extendsTrace_engArtifactSave env a _) fun _ =>
      extendsTrace_bindE extendsTrace_getRunVar fun _ =>
      extendsTrace_bindE (extendsTrace_setRunVar _) fun _ => ih

lemma extendsTrace_handleRunError (env : EngineEnv) (errMsg : String) :
    extendsTrace (handleRunError env errMsg) := by
  unfold handleRunError
  exact extendsTrace_bindE extendsTrace_getRunVar fun _ =>
    extendsTrace_bindE (extendsTrace_freshNow env) fun _ =>
    extendsTrace_bindE (extendsTrace_setRunVar _) fun _ =>
    extendsTrace_bindE extendsTrace_getManifestVar fun _ =>
    extendsTrace_bindE (extendsTrace_freshNow env) fun _ =>
    extendsTrace_bindE (extendsTrace_setManifestVar _) fun _ =>
    extendsTrace_bindE (extendsTrace_engSaveManifest env _) fun _ =>
    extendsTrace_bindE (extendsTrace_recordTrace _) fun _ =>
    extendsTrace_bindE (extendsTrace_freshNow env) fun _ =>
    extendsTrace_bindE (extendsTrace_engEmit env _) fun _ =>
    extendsTrace_pureE _

lemma extendsTrace_stepSuccessTail (env : EngineEnv) (step : WorkflowStep)
    (result : AgentExecutionOutput) :
    extendsTrace (stepSuccessTail env step result) := by
  unfold stepSuccessTail
  refine extendsTrace_bindE (extendsTrace_saveArtifacts env _) fun _ => ?_
  refine extendsTrace_bindE extendsTrace_getManifestVar fun _ => ?_
  refine extendsTrace_bindE (extendsTrace_freshNow env) fun _ => ?_
  refine extendsTrace_bindE (extendsTrace_setManifestVar _) fun _ => ?_
  refine extendsTrace_bindE (extendsTrace_freshNow env) fun _ => ?_
  refine extendsTrace_bindE (extendsTrace_engEmit env _) fun _ => ?_
  refine extendsTrace_bindE extendsTrace_getRunVar fun _ => ?_
  refine extendsTrace_bindE (extendsTrace_setRunVar _) fun _ => ?_
  refine extendsTrace_bindE extendsTrace_getManifestVar fun _ => ?_
  refine extendsTrace_bindE (extendsTrace_freshNow env) fun _ => ?_
  exact extendsTrace_setManifestVar _

lemma extendsTrace_stepFailureTail (env : EngineEnv) (step : WorkflowStep)
    (result : AgentExecutionOutput) :
    extendsTrace (stepFailureTail env step result) := by
  unfold stepFailureTail
  refine extendsTrace_bindE extendsTrace_getManifestVar fun _ => ?_
  refine extendsTrace_bindE (extendsTrace_freshNow env) fun _ => ?_
  refine extendsTrace_bindE (extendsTrace_setManifestVar _) fun _ => ?_
  refine extendsTrace_bindE (extendsTrace_freshNow env) fun _ => ?_
  refine extendsTrace_bindE (extendsTrace_engEmit env _) fun _ => ?_
  refine extendsTrace_bindE extendsTrace_getRunVar fun _ => ?_
  refine extendsTrace_bindE (extendsTrace_setRunVar _) fun _ => ?_
  refine extendsTrace_bindE extendsTrace_getManifestVar fun _ => ?_
  refine extendsTrace_bindE (extendsTrace_freshNow env) fun _ => ?_
  exact extendsTrace_setManifestVar _

lemma extendsTrace_runStepPhase (env : EngineEnv) (wf : WorkflowConfig)
    (agents : List (String × AgentDefinition)) (input : String) :
    extendsTrace (runStepPhase env wf agents input) := by
  unfold runStepPhase
  cases wf.steps.head? with
  | none => exact extendsTrace_throwE _
  | some step =>
    dsimp only
    cases agents.lookup step.agent with
    | none => exact extendsTrace_throwE _
    | some agentDef =>
      dsimp only
      refine extendsTrace_bindE extendsTrace_getRunVar fun _ => ?_
      refine extendsTrace_bindE (extendsTrace_freshNow env) fun _ => ?_
      refine extendsTrace_bindE (extendsTrace_setRunVar _) fun _ => ?_
      refine extendsTrace_bindE extendsTrace_getManifestVar fun _ => ?_
      refine extendsTrace_bindE (extendsTrace_freshNow env) fun _ => ?_
      refine extendsTrace_bindE (extendsTrace_setManifestVar _) fun _ => ?_
      refine extendsTrace_bindE (extendsTrace_engSaveManifest env _) fun _ => ?_
      refine extendsTrace_bindE (extendsTrace_freshNow env) fun _ => ?_
      refine extendsTrace_bindE (extendsTrace_engEmit env _) fun _ => ?_
      refine extendsTrace_bindE (extendsTrace_engExecute env _) fun result => ?_
      refine extendsTrace_bindE
        (extendsTrace_ite _ (extendsTrace_stepSuccessTail env step result)
          (extendsTrace_stepFailureTail env step result)) fun _ => ?_
      refine extendsTrace_bindE extendsTrace_getManifestVar fun _ => ?_
      refine extendsTrace_bindE (extendsTrace_engSaveManifest env _) fun _ => ?_
      refine extendsTrace_bindE (extendsTrace_recordTrace _) fun _ => ?_
      refine extendsTrace_bindE extendsTrace_getRunVar fun _ => ?_
      refine extendsTrace_bindE (extendsTrace_ite _ ?_ ?_) fun _ => ?_
      · exact extendsTrace_bindE (extendsTrace_freshNow env) fun _ =>
          extendsTrace_engEmit env _
      · exact extendsTrace_bindE (extendsTrace_freshNow env) fun _ =>
          extendsTrace_engEmit env _
      · refine extendsTrace_bindE extendsTrace_getRunVar fun _ => ?_
        refine extendsTrace_bindE (extendsTrace_freshNow env) fun _ => ?_
        exact extendsTrace_bindE (extendsTrace_setRunVar _) fun _ =>
          extendsTrace_pureE _

/-- Evaluation of `runEngine` up to the `try` block: the run and manifest
registrations and the initial persistence always happen first; a rejection
of the initial save or of the `workflow.started` handlers escapes `run`
(they are awaited outside the `try`). -/
lemma runEngine_unfold (env : EngineEnv) (wf : WorkflowConfig)
    (agents : List (String × AgentDefinition)) (input : String) :
    runEngine env wf agents input =
      (let run := initialRun env wf
       let M := startManifest (initialManifest env wf input)
       let s2 : EngSt :=
         { tick := 3, runVar := { run with status := RunStatus.running }
           manifestVar := M
           trace := [.runRegistered run, .manifestRegistered M, .savedManifest M] }
       match env.saveOutcome M with
       | .error e => (s2, .error e)
       | .ok _ =>
         let ev := EngineEvent.workflowStarted (env.now 3) env.runId wf.name
         let s3 : EngSt := { s2 with tick := 4, trace := s2.trace ++ [.emitted ev] }
         match env.emitOutcome ev with
         | .error e => (s3, .error e)
         | .ok _ =>
           catchE (runStepPhase env wf agents input) (handleRunError env) s3) := by
  unfold runEngine
  simp only [bindE, recordTrace, engSaveManifest, freshNow, engEmit]
  cases env.saveOutcome (startManifest (initialManifest env wf input)) with
  | error e => rfl
  | ok u =>
    cases u
    dsimp only
    cases env.emitOutcome
        (.workflowStarted (env.now 3) env.runId wf.name) with
    | error e => rfl
    | ok u2 => cases u2; rfl

/-- Evaluation of the `catch` block from an arbitrary state: it saves and
registers the failed manifest and emits `workflow.failed`; a rejection of
either of those escapes `run`. -/
lemma handleRunError_eq (env : EngineEnv) (errMsg : String) (s : EngSt) :
    handleRunError env errMsg s =
      (let run := { s.runVar with
         status := RunStatus.failed
         error := some errMsg
         updatedAt := env.now s.tick }
       let m := failManifest s.manifestVar errMsg (env.now (s.tick + 1))
       let s1 : EngSt := { tick := s.tick + 2, runVar := run, manifestVar := m
                           trace := s.trace ++ [.savedManifest m] }
       match env.saveOutcome m with
       | .error e => (s1, .error e)
       | .ok _ =>
         let ev := EngineEvent.workflowFailed (env.now (s.tick + 2)) env.runId
           errMsg
         let s2 : EngSt := { tick := s.tick + 3, runVar := run, manifestVar := m
                             trace := ((s.trace ++ [.savedManifest m]) ++
                               [.manifestRegistered m]) ++ [.emitted ev] }
         match env.emitOutcome ev with
         | .error e => (s2, .error e)
         | .ok _ => (s2, .ok run)) := by
  unfold handleRunError
  simp only [bindE, getRunVar, setRunVar, getManifestVar, setManifestVar,
    freshNow, engSaveManifest, recordTrace, engEmit, pureE]
  cases env.saveOutcome
      (failManifest s.manifestVar errMsg (env.now (s.tick + 1))) with
  | error e => rfl
  | ok u =>
    cases u
    dsimp only
    cases env.emitOutcome
        (.workflowFailed (env.now (s.tick + 2)) env.runId errMsg) with
    | error e => rfl
    | ok u2 => cases u2; rfl

/-- In a list starting with three fixed elements, any occurrence of an
element different from all three is preceded by the third. -/
lemma mem_pre_of_cons3 {α : Type} {a b c x : α} {rest pre post : List α}
    (h : a :: b :: c :: rest = pre ++ x :: post)
    (hxa : x ≠ a) (hxb : x ≠ b) (hxc : x ≠ c) : c ∈ pre := by
  rcases pre with _ | ⟨p1, _ | ⟨p2, _ | ⟨p3, pre3⟩⟩⟩
  · rw [List.nil_append] at h
    injection h with h1 _
    exact absurd h1.symm hxa
  · rw [List.cons_append, List.nil_append] at h
    injection h with _ h2
    injection h2 with h3 _
    exact absurd h3.symm hxb
  · rw [List.cons_append, List.cons_append, List.nil_append] at h
    injection h with _ h2
    injection h2 with _ h3
    injection h3 with h4 _
    exact absurd h4.symm hxc
  · rw [List.cons_append, List.cons_append, List.cons_append] at h
    injection h with _ h2
    injection h2 with _ h3
    injection h3 with h4 _
    rw [h4]
    simp

/-! ## C9 — all steps pre-registered and persisted before execution -/

/-- C9. In every run — whatever the workflow, agent map, input and effect
outcomes — the manifest registered and persisted by the engine's very
first external calls carries exactly one `ManifestStep` per declared
workflow step, in declared order (all pending); and any call into the
execution backend comes strictly after that initial persistence in the
call trace. -/
theorem runEngine_preregisters_steps (env : EngineEnv) (wf : WorkflowConfig)
    (agents : List (String × AgentDefinition)) (input : String) :
    (startManifest (initialManifest env wf input)).steps.map
        (fun s => (s.id, s.agent, s.status)) =
      wf.steps.map (fun s => (s.id, s.agent, StepStatus.pending))
    ∧ (∃ rest, (runEngine env wf agents input).1.trace =
        EngineTraceEv.runRegistered (initialRun env wf) ::
        EngineTraceEv.manifestRegistered
          (startManifest (initialManifest env wf input)) ::
        EngineTraceEv.savedManifest
          (startManifest (initialManifest env wf input)) :: rest)
    ∧ (∀ pre inp post,
        (runEngine env wf agents input).1.trace =
          pre ++ EngineTraceEv.executed inp :: post →
        EngineTraceEv.savedManifest (startManifest (initialManifest env wf input))
          ∈ pre) := by
  have hsteps : (startManifest (initialManifest env wf input)).steps.map
      (fun s => (s.id, s.agent, s.status)) =
      wf.steps.map (fun s => (s.id, s.agent, StepStatus.pending)) := by
    show (initialManifest env wf input).steps.map _ = _
    rw [initialManifest_steps]
    simp [List.map_map, Function.comp]
  have hshape : ∃ rest, (runEngine env wf agents input).1.trace =
      EngineTraceEv.runRegistered (initialRun env wf) ::
      EngineTraceEv.manifestRegistered
        (startManifest (initialManifest env wf input)) ::
      EngineTraceEv.savedManifest
        (startManifest (initialManifest env wf input)) :: rest := by
    rw [runEngine_unfold]
    dsimp only
    cases env.saveOutcome (startManifest (initialManifest env wf input)) with
    | error e => exact ⟨[], rfl⟩
    | ok u =>
      cases u
      cases henv : env.emitOutcome
          (.workflowStarted (env.now 3) env.runId wf.name) with
      | error e =>
        exact ⟨[.emitted (.workflowStarted (env.now 3) env.runId wf.name)], rfl⟩
      | ok u2 =>
        cases u2
        obtain ⟨t, ht⟩ :=
          (extendsTrace_catchE (extendsTrace_runStepPhase env wf agents input)
            fun e => extendsTrace_handleRunError env e) _
        refine ⟨.emitted (.workflowStarted (env.now 3) env.runId wf.name) :: t, ?_⟩
        rw [ht]
        simp
  refine ⟨hsteps, hshape, ?_⟩
  intro pre inp post h
  obtain ⟨rest, hsh⟩ := hshape
  rw [hsh] at h
  exact mem_pre_of_cons3 h (by simp) (by simp) (by simp)

/-- `try { throw msg } catch (e) { handle }` runs the handler at the
current state. -/
lemma catchE_throwE {α : Type} (msg : String) (h : String → EngM α)
    (s : EngSt) : catchE (throwE msg) h s = h msg s := rfl

/-- Every step of the pre-registered manifest is pending, hence never
running. -/
lemma initialManifest_no_running (env : EngineEnv) (wf : WorkflowConfig)
    (input : String) :
    ∀ s ∈ (initialManifest env wf input).steps,
      s.status ≠ StepStatus.running := by
  rw [initialManifest_steps]
  intro s hs
  simp only [List.mem_map] at hs
  obtain ⟨a, _, rfl⟩ := hs
  simp

/-! ## C3 — missing agent fails the run before any step runs -/

/-- C3. When the workflow's first step names an agent absent from the
supplied agent-definitions map (and the engine's own persistence and event
delivery do not themselves reject), `run` returns a run with status
`failed` whose error names the missing agent; the run's current step was
never set, and no manifest the engine registered or persisted — nor the
final manifest — carries a step with status `running`. -/
theorem runEngine_missing_agent (env : EngineEnv) (wf : WorkflowConfig)
    (agents : List (String × AgentDefinition)) (input : String)
    (step : WorkflowStep)
    (hstep : wf.steps.head? = some step)
    (hagent : agents.lookup step.agent = none)
    (hsave0 : env.saveOutcome (startManifest (initialManifest env wf input)) =
      .ok ())
    (hemit0 : env.emitOutcome
      (.workflowStarted (env.now 3) env.runId wf.name) = .ok ())
    (hsaveFail : ∀ m, m.status = ManifestStatus.failed →
      env.saveOutcome m = .ok ())
    (hemitFail : ∀ ts wid e,
      env.emitOutcome (.workflowFailed ts wid e) = .ok ()) :
    ∃ run, (runEngine env wf agents input).2 = .ok run
      ∧ run.status = RunStatus.failed
      ∧ run.error = some ("Agent '" ++ step.agent ++ "' not found")
      ∧ run.currentStepId = none
      ∧ (∀ m, (EngineTraceEv.savedManifest m ∈
            (runEngine env wf agents input).1.trace
          ∨ EngineTraceEv.manifestRegistered m ∈
            (runEngine env wf agents input).1.trace) →
          ∀ s ∈ m.steps, s.status ≠ StepStatus.running)
      ∧ (∀ s ∈ (runEngine env wf agents input).1.manifestVar.steps,
          s.status ≠ StepStatus.running) := by
  have hphase : runStepPhase env wf agents input =
      throwE ("Agent '" ++ step.agent ++ "' not found") := by
    unfold runStepPhase
    rw [hstep]
    dsimp only
    rw [hagent]
  rw [runEngine_unfold]
  dsimp only
  rw [hsave0]
  dsimp only
  rw [hemit0]
  dsimp only
  rw [hphase, catchE_throwE, handleRunError_eq]
  dsimp only
  have hsv : env.saveOutcome
      (failManifest (startManifest (initialManifest env wf input))
        ("Agent '" ++ step.agent ++ "' not found") (env.now (4 + 1))) =
      .ok () := hsaveFail _ rfl
  rw [hsv]
  dsimp only
  have hem : env.emitOutcome (.workflowFailed (env.now (4 + 2)) env.runId
      ("Agent '" ++ step.agent ++ "' not found")) = .ok () := hemitFail _ _ _
  rw [hem]
  dsimp only
  have hpend : ∀ s ∈ (initialManifest env wf input).steps,
      s.status ≠ StepStatus.running := initialManifest_no_running env wf input
  refine ⟨_, rfl, rfl, rfl, rfl, ?_, ?_⟩
  · intro m hm
    have hm2 : m = startManifest (initialManifest env wf input)
        ∨ m = failManifest (startManifest (initialManifest env wf input))
            ("Agent '" ++ step.agent ++ "' not found") (env.now (4 + 1)) := by
      rcases hm with hm | hm <;> simp at hm <;> tauto
    rcases hm2 with rfl | rfl
    · exact hpend
    · exact hpend
  · exact hpend

/-- A concrete environment whose effects all succeed (and whose backend
declines with error `boom`), for evaluating the engine theorems. -/
def witnessEnv : EngineEnv :=
  { runId := "2025-01-01-abc123"
    now := fun k => "ts" ++ toString k
    saveOutcome := fun _ => .ok ()
    emitOutcome := fun _ => .ok ()
    artifactSaveOutcome := fun _ _ => .ok ()
    execOutcome := fun _ =>
      .ok { success := false, artifacts := [], error := some "boom" } }

/-- A single-step workflow whose step names agent `greeter`. -/
def ghostWorkflow : WorkflowConfig :=
  { name := "hello", steps := [{ id := "greet", agent := "greeter" }] }

/-- Witness for C3: running `ghostWorkflow` with an empty agent map
returns a failed run whose error names the missing `greeter` agent. -/
theorem runEngine_missing_agent_witness :
    ∃ run, (runEngine witnessEnv ghostWorkflow [] "Say hello").2 = .ok run
      ∧ run.status = RunStatus.failed
      ∧ run.error = some "Agent 'greeter' not found" := by
  obtain ⟨run, h1, h2, h3, -, -, -⟩ :=
    runEngine_missing_agent witnessEnv ghostWorkflow [] "Say hello"
      { id := "greet", agent := "greeter" } rfl rfl rfl rfl
      (fun _ _ => rfl) (fun _ _ _ => rfl)
  exact ⟨run, h1, h2, h3⟩

/-! ## C1 — run never raises once the run object exists

The claim fails on the code: the initial manifest persistence and the
`workflow.started` emit are awaited outside the `try` block, so a
rejection there — e.g. a `workflow.started` handler throwing — escapes
`run` even though the run object already exists (and so does a rejection
of the failure path's own save or `workflow.failed` emit inside the
`catch` block). Once those are past, the claim's folding behaviour holds:
everything inside the step phase is folded into a failed manifest and a
`workflow.failed` event. -/

/-- An environment identical to `witnessEnv` except that the
`workflow.started` handlers throw. -/
def handlerThrowsEnv : EngineEnv :=
  { runId := "2025-01-01-abc123"
    now := fun k => "ts" ++ toString k
    saveOutcome := fun _ => .ok ()
    emitOutcome := fun e =>
      match e with
      | .workflowStarted _ _ _ => .error "started handler threw"
      | _ => .ok ()
    artifactSaveOutcome := fun _ _ => .ok ()
    execOutcome := fun _ => .ok { success := true, artifacts := [] } }

/-- An agent map binding `greeter`. -/
def sampleAgents : List (String × AgentDefinition) :=
  [("greeter",
    { config := { name := "greeter", role := "Greeter" }
      prompt := "You are a greeter." })]

/-- Counterexample to C1 as stated: with the run object already created
and registered, a `workflow.started` handler exception propagates out of
`run` — the promise rejects instead of returning a failed `WorkflowRun`. -/
theorem runEngine_raises_on_started_handler :
    (runEngine handlerThrowsEnv ghostWorkflow sampleAgents "Say hello").2 =
      .error "started handler threw" := rfl

/-- The `else` tail ends with the run and manifest variables failed. -/
lemma stepFailureTail_ok (env : EngineEnv) (step : WorkflowStep)
    (result : AgentExecutionOutput) (s s1 : EngSt) (u : Unit)
    (h : stepFailureTail env step result s = (s1, .ok u)) :
    s1.runVar.status = RunStatus.failed
    ∧ s1.manifestVar.status = ManifestStatus.failed := by
  unfold stepFailureTail at h
  simp only [bindE, getManifestVar, setManifestVar, freshNow, engEmit,
    getRunVar, setRunVar] at h
  split at h
  case _ =>
    injection h with h1 h2
    subst h1
    exact ⟨rfl, rfl⟩
  case _ => simp at h

/-- The success tail ends with the run variable completed. -/
lemma stepSuccessTail_ok (env : EngineEnv) (step : WorkflowStep)
    (result : AgentExecutionOutput) (s s1 : EngSt) (u : Unit)
    (h : stepSuccessTail env step result s = (s1, .ok u)) :
    s1.runVar.status = RunStatus.completed := by
  unfold stepSuccessTail at h
  simp only [bindE, getManifestVar, setManifestVar, freshNow, engEmit,
    getRunVar, setRunVar] at h
  split at h
  case _ =>
    split at h
    case _ =>
      injection h with h1 h2
      subst h1
      rfl
    case _ => simp at h
  case _ => simp at h

/-- When the `try` block returns a run normally, that run is either
completed, or failed with `workflow.failed` emitted and the manifest
failed. -/
lemma runStepPhase_ok_spec (env : EngineEnv) (wf : WorkflowConfig)
    (agents : List (String × AgentDefinition)) (input : String)
    (s s' : EngSt) (run : WorkflowRun)
    (h : runStepPhase env wf agents input s = (s', .ok run)) :
    run.status = RunStatus.completed
    ∨ (run.status = RunStatus.failed
        ∧ (∃ ts e, EngineTraceEv.emitted (.workflowFailed ts env.runId e) ∈
            s'.trace)
        ∧ s'.manifestVar.status = ManifestStatus.failed) := by
  unfold runStepPhase at h
  rcases hh : wf.steps.head? with _ | step
  · rw [hh] at h
    simp [throwE] at h
  · rw [hh] at h
    dsimp only at h
    rcases hl : agents.lookup step.agent with _ | agentDef
    · rw [hl] at h
      simp [throwE] at h
    · rw [hl] at h
      dsimp only at h
      simp only [bindE, getRunVar, setRunVar, getManifestVar, setManifestVar,
        freshNow, engSaveManifest, engEmit, engExecute, recordTrace, pureE] at h
      split at h
      case _ => -- running-manifest save succeeded
        split at h
        case _ => -- step.started emit succeeded
          split at h
          case _ => -- backend call resolved
            rename_i x3 s3 result heq3
            cases hsu : result.success with
            | false =>
              rw [hsu] at h
              simp only [Bool.false_eq_true, reduceIte] at h
              split at h
              case _ => -- stepFailureTail succeeded
                rename_i xT sT uT heqT
                obtain ⟨hTrun, hTman⟩ :=
                  stepFailureTail_ok env step result _ sT uT heqT
                split at h
                case _ => -- final save succeeded
                  rename_i x5 s5 u5 heq5
                  injection heq5 with h5a h5b
                  subst h5a
                  dsimp only at h
                  rw [if_neg (by rw [hTrun]; decide)] at h
                  split at h
                  case _ => -- workflow.failed emit succeeded
                    rename_i x7 s7 u7 heq7
                    injection heq7 with h7a h7b
                    subst h7a
                    injection h with ha hb
                    injection hb with hb
                    subst ha
                    subst hb
                    refine Or.inr ⟨hTrun, ?_, hTman⟩
                    dsimp only
                    exact ⟨_, _, List.mem_append_right _
                      (List.mem_singleton.mpr rfl)⟩
                  case _ => simp at h
                case _ => simp at h
              case _ => simp at h
            | true =>
              rw [hsu] at h
              simp only [reduceIte] at h
              split at h
              case _ => -- stepSuccessTail succeeded
                rename_i xT sT uT heqT
                have hTrun := stepSuccessTail_ok env step result _ sT uT heqT
                split at h
                case _ => -- final save succeeded
                  rename_i x5 s5 u5 heq5
                  injection heq5 with h5a h5b
                  subst h5a
                  dsimp only at h
                  rw [if_pos hTrun] at h
                  split at h
                  case _ => -- workflow.completed emit succeeded
                    rename_i x7 s7 u7 heq7
                    injection heq7 with h7a h7b
                    subst h7a
                    injection h with ha hb
                    injection hb with hb
                    subst ha
                    subst hb
                    exact Or.inl hTrun
                  case _ => simp at h
                case _ => simp at h
              case _ => simp at h
          case _ => simp at h
        case _ => simp at h
      case _ => simp at h

/-- The `try`/`catch` of the step phase, from any state: provided the
failure path's own save and `workflow.failed` emit succeed, it always
settles with a run (completed or failed), and a failed run comes with a
failed manifest and an emitted `workflow.failed`. -/
lemma catchE_phase_spec (env : EngineEnv) (wf : WorkflowConfig)
    (agents : List (String × AgentDefinition)) (input : String) (s0 : EngSt)
    (hsaveFail : ∀ m, m.status = ManifestStatus.failed →
      env.saveOutcome m = .ok ())
    (hemitFail : ∀ ts wid e,
      env.emitOutcome (.workflowFailed ts wid e) = .ok ()) :
    ∃ run,
      (catchE (runStepPhase env wf agents input) (handleRunError env) s0).2 =
        .ok run
      ∧ (run.status = RunStatus.completed ∨ run.status = RunStatus.failed)
      ∧ (run.status = RunStatus.failed →
          (catchE (runStepPhase env wf agents input) (handleRunError env)
              s0).1.manifestVar.status = ManifestStatus.failed
          ∧ ∃ ts e, EngineTraceEv.emitted (.workflowFailed ts env.runId e) ∈
              (catchE (runStepPhase env wf agents input) (handleRunError env)
                s0).1.trace) := by
  rcases hres : runStepPhase env wf agents input s0 with ⟨sP, rP⟩
  cases rP with
  | ok run =>
    have hc : catchE (runStepPhase env wf agents input) (handleRunError env) s0
        = (sP, .ok run) := by
      unfold catchE
      rw [hres]
    have hspec := runStepPhase_ok_spec env wf agents input s0 sP run hres
    rw [hc]
    rcases hspec with hcomp | ⟨hfail, hmem, hman⟩
    · refine ⟨run, rfl, Or.inl hcomp, fun hf => absurd hf ?_⟩
      rw [hcomp]
      decide
    · exact ⟨run, rfl, Or.inr hfail, fun _ => ⟨hman, hmem⟩⟩
  | error e =>
    have hc : catchE (runStepPhase env wf agents input) (handleRunError env) s0
        = handleRunError env e sP := by
      unfold catchE
      rw [hres]
    rw [hc, handleRunError_eq]
    dsimp only
    have hsv : env.saveOutcome
        (failManifest sP.manifestVar e (env.now (sP.tick + 1))) = .ok () :=
      hsaveFail _ rfl
    rw [hsv]
    dsimp only
    rw [hemitFail (env.now (sP.tick + 2)) env.runId e]
    dsimp only
    refine ⟨_, rfl, Or.inr rfl, fun _ => ⟨rfl, ?_⟩⟩
    exact ⟨_, _, List.mem_append_right _ (List.mem_singleton.mpr rfl)⟩

/-- C1 (amended). Once the initial manifest persistence and the
`workflow.started` emit have succeeded, and provided the failure path's
own manifest save and `workflow.failed` emit succeed, `run` returns a
`WorkflowRun` normally for every backend behaviour, handler behaviour and
step-phase persistence outcome: each such failure is folded into a failed
manifest and a `workflow.failed` event, observed only through the returned
run's status and error fields. -/
theorem runEngine_folds_failures (env : EngineEnv) (wf : WorkflowConfig)
    (agents : List (String × AgentDefinition)) (input : String)
    (hsave0 : env.saveOutcome (startManifest (initialManifest env wf input)) =
      .ok ())
    (hemit0 : env.emitOutcome
      (.workflowStarted (env.now 3) env.runId wf.name) = .ok ())
    (hsaveFail : ∀ m, m.status = ManifestStatus.failed →
      env.saveOutcome m = .ok ())
    (hemitFail : ∀ ts wid e,
      env.emitOutcome (.workflowFailed ts wid e) = .ok ()) :
    ∃ run, (runEngine env wf agents input).2 = .ok run
      ∧ (run.status = RunStatus.completed ∨ run.status = RunStatus.failed)
      ∧ (run.status = RunStatus.failed →
          (runEngine env wf agents input).1.manifestVar.status =
            ManifestStatus.failed
          ∧ ∃ ts e, EngineTraceEv.emitted (.workflowFailed ts env.runId e) ∈
              (runEngine env wf agents input).1.trace) := by
  rw [runEngine_unfold]
  dsimp only
  rw [hsave0]
  dsimp only
  rw [hemit0]
  dsimp only
  exact catchE_phase_spec env wf agents input _ hsaveFail hemitFail

/-- Witness for the amended C1: with reliable persistence and handlers and
a backend that declines with `boom`, `run` settles normally, the run is
failed, the final manifest is failed and `workflow.failed` was emitted. -/
theorem runEngine_folds_failures_witness :
    ∃ run, (runEngine witnessEnv ghostWorkflow sampleAgents "Say hello").2 =
        .ok run
      ∧ (run.status = RunStatus.completed ∨ run.status = RunStatus.failed)
      ∧ (run.status = RunStatus.failed →
          (runEngine witnessEnv ghostWorkflow sampleAgents
              "Say hello").1.manifestVar.status = ManifestStatus.failed
          ∧ ∃ ts e, EngineTraceEv.emitted
              (.workflowFailed ts witnessEnv.runId e) ∈
              (runEngine witnessEnv ghostWorkflow sampleAgents
                "Say hello").1.trace) :=
  runEngine_folds_failures witnessEnv ghostWorkflow sampleAgents "Say hello"
    rfl rfl (fun _ _ => rfl) (fun _ _ _ => rfl)

end Maestro
